import Mathlib

/-!
Verification of the client-side response cache of the FinancialTracker
repository (src/src/cache.js): the DataCache class (get/set/invalidate/clear,
TTL resolution, eviction, localStorage persistence) and the
window.cacheInvalidation router.

The JavaScript Map is modelled as an insertion-ordered association list with
unique keys; Date.now() is an explicit Int parameter; localStorage is modelled
as two durable slots, each either missing, malformed (JSON.parse throws), or
holding a parsed entry list.
-/

/-- Substring test on character lists: does the list start with the pattern. -/
def listStartsWith : List Char → List Char → Bool
  | _, [] => true
  | [], _ :: _ => false
  | c :: cs, p :: ps => c = p && listStartsWith cs ps

/-- Substring containment on character lists (JavaScript String.includes). -/
def listContainsSub : List Char → List Char → Bool
  | [], pat => pat.isEmpty
  | c :: cs, pat => listStartsWith (c :: cs) pat || listContainsSub cs pat

/-- JavaScript url.includes(pat): pat occurs as a contiguous substring of s. -/
def strIncludes (s pat : String) : Bool :=
  listContainsSub s.data pat.data

/-- First entry of an association list with the given key (Map.prototype.get). -/
def mapGet (m : List (String × β)) (k : String) : Option β :=
  Option.map Prod.snd (m.find? (fun kv => decide (kv.1 = k)))

/-- Map.prototype.has. -/
def mapHas (m : List (String × β)) (k : String) : Bool :=
  (mapGet m k).isSome

/-- Map.prototype.set: replace the value in place if the key exists
(preserving insertion order), otherwise append at the end. -/
def mapSet : List (String × β) → String → β → List (String × β)
  | [], k, v => [(k, v)]
  | kv :: rest, k, v =>
    if kv.1 = k then (k, v) :: rest else kv :: mapSet rest k v

/-- Map.prototype.delete: remove every entry with the given key. -/
def mapDelete (m : List (String × β)) (k : String) : List (String × β) :=
  m.filter (fun kv => decide (kv.1 ≠ k))

/-- The keys of an association list, in insertion order. -/
def keysOf (m : List (String × β)) : List String :=
  m.map Prod.fst

/-- this.defaultTTL = 5 * 60 * 1000 (cache.js line 6). -/
def defaultTTL : Int := 5 * 60 * 1000

/-- this.maxCacheSize = 50 (cache.js line 7). -/
def maxCacheSize : Nat := 50

/-- this.cacheConfig (cache.js lines 15-24), in declaration order. -/
def cacheConfig : List (String × Int) :=
  [("/api/accounts", 10 * 60 * 1000),
   ("/api/financial-summary", 5 * 60 * 1000),
   ("/api/transactions/recent", 2 * 60 * 1000),
   ("/api/accounts/summary/", 5 * 60 * 1000),
   ("/api/analytics/monthly-summary", 30 * 60 * 1000),
   ("/api/analytics/balance-history", 15 * 60 * 1000),
   ("/api/analytics/account-balance", 15 * 60 * 1000),
   ("/api/transactions/search", 1 * 60 * 1000)]

/-- The for-of loop body of getTTL: first table entry whose pattern is
contained in the url wins; defaultTTL when the table is exhausted. -/
def getTTLAux : List (String × Int) → String → Int
  | [], _ => defaultTTL
  | p :: rest, url => if strIncludes url p.1 then p.2 else getTTLAux rest url

/-- DataCache.getTTL (cache.js lines 78-86). -/
def getTTL (url : String) : Int :=
  getTTLAux cacheConfig url

/-- In-memory state of a DataCache: this.cache and this.cacheTimestamps,
two insertion-ordered maps keyed by the cache key; a timestamp is the
absolute expiry time (epoch milliseconds). -/
structure DataCache (α : Type) where
  cache : List (String × α)
  cacheTimestamps : List (String × Int)
  deriving DecidableEq, Repr

/-- A durable localStorage slot: absent (getItem returns null), malformed
(JSON.parse throws), or a parsed object's entry list. -/
inductive Slot (β : Type) where
  | missing
  | malformed
  | data (entries : List (String × β))
  deriving DecidableEq, Repr

/-- The two durable slots used by DataCache: this.storageKey holds the
serialized entry map, this.timestampsKey the serialized expiry map. -/
structure Storage (α : Type) where
  storedCache : Slot α
  storedTimestamps : Slot Int
  deriving DecidableEq, Repr

/-- DataCache.cleanupExpired (cache.js lines 92-110): collect every key whose
expiry is strictly in the past, then delete those keys from both maps. -/
def DataCache.cleanupExpired (dc : DataCache α) (now : Int) : DataCache α :=
  let keysToDelete := keysOf (dc.cacheTimestamps.filter (fun kv => decide (now > kv.2)))
  ⟨keysToDelete.foldl mapDelete dc.cache,
   keysToDelete.foldl mapDelete dc.cacheTimestamps⟩

/-- DataCache.evictOldest (cache.js lines 138-159): scan the timestamp map for
the entry with the smallest expiry, starting the minimum at Date.now(); delete
that entry from both maps if one was found. -/
def DataCache.evictOldest (dc : DataCache α) (now : Int) : DataCache α :=
  if dc.cache.length = 0 then dc
  else
    match (dc.cacheTimestamps.foldl
      (fun (acc : Option String × Int) kv =>
        if kv.2 < acc.2 then (some kv.1, kv.2) else acc)
      ((none : Option String), now)).1 with
    | some oldestKey =>
        ⟨mapDelete dc.cache oldestKey, mapDelete dc.cacheTimestamps oldestKey⟩
    | none => dc

/-- DataCache.set (cache.js lines 118-133), in-memory effect. The ttl argument
is null (none) or a number; actualTTL = ttl || this.getTTL(key), so a ttl of 0
falls back to the TTL policy. Eviction runs when the store is at or above
capacity and the key is new. -/
def DataCache.set (dc : DataCache α) (key : String) (data : α)
    (ttl : Option Int) (now : Int) : DataCache α :=
  let actualTTL := match ttl with
    | some t => if t = 0 then getTTL key else t
    | none => getTTL key
  let dc2 :=
    if maxCacheSize ≤ dc.cache.length ∧ mapHas dc.cache key = false then
      dc.evictOldest now
    else dc
  ⟨mapSet dc2.cache key data, mapSet dc2.cacheTimestamps key (now + actualTTL)⟩

/-- DataCache.get (cache.js lines 166-184): unknown key is a miss; a known key
whose expiry is strictly in the past is removed from both maps and missed;
otherwise the stored value is returned and the state is untouched. -/
def DataCache.get (dc : DataCache α) (key : String) (now : Int) :
    Option α × DataCache α :=
  if mapHas dc.cache key = false then (none, dc)
  else
    match mapGet dc.cacheTimestamps key with
    | some expiry =>
        if now > expiry then
          (none, ⟨mapDelete dc.cache key, mapDelete dc.cacheTimestamps key⟩)
        else (mapGet dc.cache key, dc)
    | none => (mapGet dc.cache key, dc)

/-- The keys the invalidate loop collects: every key of this.cache containing
the pattern as a substring (cache.js lines 191-196). -/
def keysMatching (dc : DataCache α) (pat : String) : List String :=
  (keysOf dc.cache).filter (fun k => strIncludes k pat)

/-- DataCache.invalidate (cache.js lines 190-208), in-memory effect: delete
every collected key from both maps. -/
def DataCache.invalidate (dc : DataCache α) (pat : String) : DataCache α :=
  let ks := keysMatching dc pat
  ⟨ks.foldl mapDelete dc.cache, ks.foldl mapDelete dc.cacheTimestamps⟩

/-- DataCache.getStats (cache.js lines 228-234), the size and keys fields. -/
def DataCache.getStats (dc : DataCache α) : Nat × List String :=
  (dc.cache.length, keysOf dc.cache)

/-- DataCache.saveToStorage (cache.js lines 59-71): write both maps, wholly,
into the two durable slots. -/
def saveToStorage (dc : DataCache α) : Storage α :=
  ⟨Slot.data dc.cache, Slot.data dc.cacheTimestamps⟩

/-- DataCache.loadFromStorage (cache.js lines 30-54): parse the entry slot,
then the timestamp slot; a missing slot leaves that map empty; a JSON.parse
failure on either slot lands in the catch block, which resets both maps to
empty; on success cleanupExpired sweeps already-expired entries. -/
def loadFromStorage (st : Storage α) (now : Int) : DataCache α :=
  match st.storedCache, st.storedTimestamps with
  | Slot.malformed, _ => ⟨[], []⟩
  | _, Slot.malformed => ⟨[], []⟩
  | c, t =>
      let centries := match c with | Slot.data es => es | _ => []
      let tentries := match t with | Slot.data es => es | _ => []
      DataCache.cleanupExpired ⟨centries, tentries⟩ now

/-- set followed by its saveToStorage call (cache.js line 130). -/
def setOp (dc : DataCache α) (key : String) (data : α) (ttl : Option Int)
    (now : Int) : DataCache α × Storage α :=
  let dc2 := dc.set key data ttl now
  (dc2, saveToStorage dc2)

/-- get never touches the durable slots, even when it removes an expired
entry from memory (cache.js lines 166-184 contain no saveToStorage call). -/
def getOp (dc : DataCache α) (st : Storage α) (key : String) (now : Int) :
    Option α × DataCache α × Storage α :=
  let r := dc.get key now
  (r.1, r.2, st)

/-- invalidate saves to storage only when keysToDelete was nonempty
(cache.js lines 204-207). -/
def invalidateOp (dc : DataCache α) (st : Storage α) (pat : String) :
    DataCache α × Storage α :=
  let dc2 := dc.invalidate pat
  (dc2, if 0 < (keysMatching dc pat).length then saveToStorage dc2 else st)

/-- DataCache.clear (cache.js lines 213-222): empty both maps and remove both
localStorage items. -/
def clearOp (dc : DataCache α) (st : Storage α) : DataCache α × Storage α :=
  (⟨[], []⟩, ⟨Slot.missing, Slot.missing⟩)

/-- The method names defined on the window.cacheInvalidation object literal
(cache.js lines 271-296). -/
def cacheInvalidationMethodNames : List String :=
  ["invalidateUserData", "invalidateAccountData", "invalidateTransactionData"]

/-- Patterns passed to dataCache.invalidate by invalidateUserData
(cache.js lines 273-279). -/
def invalidateUserDataPatterns : List String :=
  ["/api/accounts", "/api/financial-summary", "/api/transactions", "/api/analytics"]

/-- Patterns passed to dataCache.invalidate by invalidateAccountData
(cache.js lines 282-287). -/
def invalidateAccountDataPatterns (accountId : String) : List String :=
  ["/api/accounts/summary/" ++ accountId, "/api/accounts", "/api/financial-summary"]

/-- Patterns passed to dataCache.invalidate by invalidateTransactionData
(cache.js lines 290-295). -/
def invalidateTransactionDataPatterns : List String :=
  ["/api/transactions", "/api/financial-summary", "/api/analytics"]

/-! ## Association-list lemmas -/

lemma mapGet_nil (k : String) : mapGet ([] : List (String × β)) k = none := rfl

lemma mapGet_cons (kv : String × β) (m : List (String × β)) (k : String) :
    mapGet (kv :: m) k = if kv.1 = k then some kv.2 else mapGet m k := by
  by_cases h : kv.1 = k <;> simp [mapGet, List.find?_cons, h]

lemma mapGet_mapSet_self (m : List (String × β)) (k : String) (v : β) :
    mapGet (mapSet m k v) k = some v := by
  induction m with
  | nil => simp [mapSet, mapGet_cons, mapGet_nil]
  | cons kv m ih =>
    by_cases h : kv.1 = k
    · simp [mapSet, h, mapGet_cons]
    · simp [mapSet, h, mapGet_cons, ih]

lemma mapGet_mapSet_ne (m : List (String × β)) (k k2 : String) (v : β)
    (h : k2 ≠ k) : mapGet (mapSet m k v) k2 = mapGet m k2 := by
  have hne : ¬(k = k2) := fun he => h he.symm
  induction m with
  | nil => rw [mapSet, mapGet_cons, if_neg hne]
  | cons kv m ih =>
    by_cases hk : kv.1 = k
    · rw [mapSet, if_pos hk, mapGet_cons, if_neg hne, mapGet_cons,
        if_neg (fun he => hne (hk ▸ he))]
    · rw [mapSet, if_neg hk, mapGet_cons, mapGet_cons, ih]

lemma mem_mapSet_self (m : List (String × β)) (k : String) (v : β) :
    (k, v) ∈ mapSet m k v := by
  induction m with
  | nil => simp [mapSet]
  | cons kv m ih =>
    by_cases h : kv.1 = k <;> simp [mapSet, h, ih]

lemma mapGet_filter_key (m : List (String × β)) (q : String → Bool) (k : String) :
    mapGet (m.filter (fun kv => q kv.1)) k
      = if q k = true then mapGet m k else none := by
  induction m with
  | nil => cases h : q k <;> simp [mapGet_nil, h]
  | cons kv m ih =>
    by_cases hk : kv.1 = k
    · subst hk
      cases h : q kv.1 with
      | true => simp [List.filter_cons, h, mapGet_cons]
      | false => simp [List.filter_cons, h, ih]
    · cases h : q kv.1 with
      | true => simp [List.filter_cons, h, mapGet_cons, hk, ih]
      | false => simp [List.filter_cons, h, ih, mapGet_cons, hk]

lemma foldl_mapDelete (ks : List String) (m : List (String × β)) :
    ks.foldl mapDelete m = m.filter (fun kv => decide (kv.1 ∉ ks)) := by
  induction ks generalizing m with
  | nil => simp
  | cons a ks ih =>
    rw [List.foldl_cons, mapDelete, ih, List.filter_filter]
    apply List.filter_congr
    intro kv _
    by_cases h1 : kv.1 = a <;> by_cases h2 : kv.1 ∈ ks <;> simp [h1, h2]

lemma mapHas_iff_mem_keysOf (m : List (String × β)) (k : String) :
    mapHas m k = true ↔ k ∈ keysOf m := by
  induction m with
  | nil => simp [mapHas, mapGet_nil, keysOf]
  | cons kv m ih =>
    by_cases h : kv.1 = k
    · simp [mapHas, mapGet_cons, h, keysOf]
    · simp only [mapHas, mapGet_cons, if_neg h, keysOf, List.map_cons, List.mem_cons]
      rw [← keysOf, ← mapHas]
      constructor
      · intro hx
        exact Or.inr (ih.1 hx)
      · intro hx
        rcases hx with hx | hx
        · exact absurd hx.symm h
        · exact ih.2 hx

lemma mapGet_eq_of_mem (m : List (String × β)) (kv : String × β)
    (h : kv ∈ m) (hnd : (keysOf m).Nodup) : mapGet m kv.1 = some kv.2 := by
  induction m with
  | nil => cases h
  | cons a m ih =>
    simp only [keysOf, List.map_cons, List.nodup_cons] at hnd
    rcases List.mem_cons.1 h with h | h
    · subst h
      simp [mapGet_cons]
    · have hne : a.1 ≠ kv.1 := by
        intro he
        exact hnd.1 (he ▸ List.mem_map_of_mem Prod.fst h)
      rw [mapGet_cons, if_neg hne]
      exact ih h hnd.2

lemma mem_keysOf_of_mem (m : List (String × β)) (kv : String × β)
    (h : kv ∈ m) : kv.1 ∈ keysOf m :=
  List.mem_map_of_mem Prod.fst h

lemma nodup_keysOf_filter (m : List (String × β)) (p : String × β → Bool)
    (h : (keysOf m).Nodup) : (keysOf (m.filter p)).Nodup :=
  List.Nodup.sublist ((List.filter_sublist m).map Prod.fst) h

lemma mem_keysOf_mapSet (m : List (String × β)) (k : String) (v : β)
    (x : String) : x ∈ keysOf (mapSet m k v) → x = k ∨ x ∈ keysOf m := by
  induction m with
  | nil =>
    intro h
    simp only [mapSet, keysOf, List.map_cons, List.map_nil, List.mem_cons,
      List.not_mem_nil, or_false] at h
    exact Or.inl h
  | cons kv m ih =>
    intro h
    simp only [keysOf, List.map_cons, List.mem_cons]
    by_cases hk : kv.1 = k
    · simp only [mapSet, if_pos hk, keysOf, List.map_cons, List.mem_cons] at h
      rcases h with h | h
      · exact Or.inl h
      · exact Or.inr (Or.inr h)
    · simp only [mapSet, if_neg hk, keysOf, List.map_cons, List.mem_cons] at h
      rcases h with h | h
      · exact Or.inr (Or.inl h)
      · rcases ih h with h | h
        · exact Or.inl h
        · exact Or.inr (Or.inr h)

lemma nodup_keysOf_mapSet (m : List (String × β)) (k : String) (v : β) :
    (keysOf m).Nodup → (keysOf (mapSet m k v)).Nodup := by
  induction m with
  | nil => intro _; simp [mapSet, keysOf]
  | cons kv m ih =>
    intro h
    simp only [keysOf, List.map_cons, List.nodup_cons] at h
    by_cases hk : kv.1 = k
    · simp only [mapSet, if_pos hk, keysOf, List.map_cons, List.nodup_cons]
      exact ⟨hk ▸ h.1, h.2⟩
    · simp only [mapSet, if_neg hk, keysOf, List.map_cons, List.nodup_cons]
      refine ⟨fun hx => ?_, ih h.2⟩
      rcases mem_keysOf_mapSet m k v kv.1 hx with he | he
      · exact hk he
      · exact h.1 he

lemma mapGet_mapDelete (m : List (String × β)) (k k2 : String) :
    mapGet (mapDelete m k) k2 = if k2 = k then none else mapGet m k2 := by
  unfold mapDelete
  have h := mapGet_filter_key m (fun x => decide (x ≠ k)) k2
  by_cases hk : k2 = k
  · simp [hk] at h
    simpa [hk] using h
  · simp [hk] at h
    simpa [hk] using h

lemma mapHas_mapDelete_self (m : List (String × β)) (k : String) :
    mapHas (mapDelete m k) k = false := by
  rw [mapHas, mapGet_mapDelete, if_pos rfl]
  rfl

lemma mapGet_foldl_mapDelete (ks : List String) (m : List (String × β))
    (k : String) :
    mapGet (ks.foldl mapDelete m) k = if k ∈ ks then none else mapGet m k := by
  rw [foldl_mapDelete]
  have h := mapGet_filter_key m (fun x => decide (x ∉ ks)) k
  by_cases hk : k ∈ ks
  · simp [hk] at h
    simpa [hk] using h
  · simp [hk] at h
    simpa [hk] using h

lemma mapHas_foldl_mapDelete (ks : List String) (m : List (String × β))
    (k : String) :
    mapHas (ks.foldl mapDelete m) k
      = if k ∈ ks then false else mapHas m k := by
  rw [mapHas, mapGet_foldl_mapDelete]
  by_cases hk : k ∈ ks <;> simp [hk, mapHas]

lemma mem_keysMatching (dc : DataCache α) (pat k : String) :
    k ∈ keysMatching dc pat
      ↔ (mapHas dc.cache k = true ∧ strIncludes k pat = true) := by
  rw [keysMatching, List.mem_filter, mapHas_iff_mem_keysOf]

lemma get_after_set (dc : DataCache α) (k : String) (v : α) (T t0 t : Int)
    (hT : T ≠ 0) :
    (dc.set k v (some T) t0).get k t =
      if t > t0 + T then
        (none, ⟨mapDelete (dc.set k v (some T) t0).cache k,
                mapDelete (dc.set k v (some T) t0).cacheTimestamps k⟩)
      else (some v, dc.set k v (some T) t0) := by
  have hc : (dc.set k v (some T) t0).cache
      = mapSet (if maxCacheSize ≤ dc.cache.length ∧ mapHas dc.cache k = false
          then dc.evictOldest t0 else dc).cache k v := rfl
  have hts : (dc.set k v (some T) t0).cacheTimestamps
      = mapSet (if maxCacheSize ≤ dc.cache.length ∧ mapHas dc.cache k = false
          then dc.evictOldest t0 else dc).cacheTimestamps k
          (t0 + (if T = 0 then getTTL k else T)) := rfl
  rw [DataCache.get, hts, mapGet_mapSet_self, if_neg hT]
  have h1 : mapHas (dc.set k v (some T) t0).cache k = true := by
    rw [mapHas, hc, mapGet_mapSet_self]
    rfl
  rw [h1]
  simp only [Bool.true_eq_false, if_false]
  by_cases ht : t > t0 + T
  · rw [if_pos ht, if_pos ht]
  · rw [if_neg ht, if_neg ht, hc, mapGet_mapSet_self]

/-- The TTL resolution rule as the spec words it: the duration of the first
entry of the static route-prefix table (in declaration order) whose prefix is
contained in the key, and 5 minutes (300000 ms) when no entry matches. -/
def ttlResolutionSpec (url : String) : Int :=
  match cacheConfig.find? (fun p => strIncludes url p.1) with
  | some p => p.2
  | none => 300000

lemma getTTLAux_eq_find (table : List (String × Int)) (url : String) :
    getTTLAux table url
      = (match table.find? (fun p => strIncludes url p.1) with
         | some p => p.2
         | none => defaultTTL) := by
  induction table with
  | nil => rfl
  | cons p rest ih =>
    cases h : strIncludes url p.1 with
    | true => simp [getTTLAux, h, List.find?_cons]
    | false => simp [getTTLAux, h, List.find?_cons, ih]

/-! ## Claim theorems -/

/-- C4: get contract with TTL boundary. An unknown key is a miss that leaves
the store unchanged; a known key whose expiry is strictly in the past is
removed from both maps and missed; otherwise the stored value is returned
with the store untouched. Consequently, after set(k, v, ttl = T) at time t0,
get(k) at any time up to and including t0 + T returns v, and get(k) at any
time strictly after t0 + T returns absent and removes the entry. -/
theorem C4_get_ttl_boundary (dc : DataCache Nat) (k : String) (now : Int)
    (v : Nat) (T t0 t : Int) :
    (mapHas dc.cache k = false → dc.get k now = (none, dc)) ∧
    (∀ e, mapHas dc.cache k = true → mapGet dc.cacheTimestamps k = some e →
      now > e → (dc.get k now).1 = none ∧
        mapHas (dc.get k now).2.cache k = false) ∧
    (∀ e, mapHas dc.cache k = true → mapGet dc.cacheTimestamps k = some e →
      ¬ now > e → dc.get k now = (mapGet dc.cache k, dc)) ∧
    (T ≠ 0 → t ≤ t0 + T → ((dc.set k v (some T) t0).get k t).1 = some v) ∧
    (T ≠ 0 → t > t0 + T → ((dc.set k v (some T) t0).get k t).1 = none ∧
      mapHas ((dc.set k v (some T) t0).get k t).2.cache k = false) := by
  refine ⟨?_, ?_, ?_, ?_, ?_⟩
  · intro h
    rw [DataCache.get, if_pos h]
  · intro e hhas hts hnow
    rw [DataCache.get, hhas]
    simp only [Bool.true_eq_false, if_false, hts, if_pos hnow]
    exact ⟨trivial, mapHas_mapDelete_self dc.cache k⟩
  · intro e hhas hts hnow
    rw [DataCache.get, hhas]
    simp only [Bool.true_eq_false, if_false, hts, if_neg hnow]
  · intro hT ht
    rw [get_after_set dc k v T t0 t hT, if_neg (not_lt.2 ht)]
  · intro hT ht
    rw [get_after_set dc k v T t0 t hT, if_pos ht]
    exact ⟨rfl, mapHas_mapDelete_self _ k⟩

/-- Witness for C4 at a concrete input: set "a" with ttl 100 at time 0, then
get at the boundary time 100 (hit) and at time 101 (miss). -/
theorem C4_get_ttl_boundary_witness :
    ((((⟨[], []⟩ : DataCache Nat).set "a" 7 (some 100) 0).get "a" 100).1
        = some 7) ∧
    ((((⟨[], []⟩ : DataCache Nat).set "a" 7 (some 100) 0).get "a" 101).1
        = none) :=
  ⟨(C4_get_ttl_boundary ⟨[], []⟩ "a" 0 7 100 0 100).2.2.2.1
      (by decide) (by decide),
   ((C4_get_ttl_boundary ⟨[], []⟩ "a" 0 7 100 0 101).2.2.2.2
      (by decide) (by decide)).1⟩

/-- C6: TTL resolution. getTTL returns the duration of the first entry of the
static route-prefix table whose prefix is contained in the key, in declaration
order, and 5 minutes (300000 ms) when no entry matches; and set without an
explicit ttl stamps the entry with now + getTTL(key). -/
theorem C6_ttl_resolution (url k : String) (dc : DataCache Nat) (v : Nat)
    (now : Int) :
    getTTL url = ttlResolutionSpec url ∧
    mapGet (dc.set k v none now).cacheTimestamps k
      = some (now + getTTL k) := by
  constructor
  · rw [getTTL, getTTLAux_eq_find, ttlResolutionSpec]
    cases cacheConfig.find? (fun p => strIncludes url p.1) with
    | none => decide
    | some p => rfl
  · exact mapGet_mapSet_self _ k (now + getTTL k)

/-- C10: a falsy explicit ttl falls back to the TTL policy. set with ttl 0
behaves exactly like set with no ttl argument, and the resulting entry
expires at now + getTTL(key), not immediately. -/
theorem C10_zero_ttl_falls_back (dc : DataCache Nat) (k : String) (v : Nat)
    (now : Int) :
    dc.set k v (some 0) now = dc.set k v none now ∧
    mapGet (dc.set k v (some 0) now).cacheTimestamps k
      = some (now + getTTL k) := by
  constructor
  · rfl
  · exact mapGet_mapSet_self _ k (now + getTTL k)

lemma mem_of_mapGet_eq_some (m : List (String × β)) (k : String) (v : β)
    (h : mapGet m k = some v) : (k, v) ∈ m := by
  induction m with
  | nil => simp [mapGet_nil] at h
  | cons kv m ih =>
    rw [mapGet_cons] at h
    by_cases hk : kv.1 = k
    · rw [if_pos hk] at h
      have hv : kv.2 = v := Option.some.inj h
      have : kv = (k, v) := by
        rw [Prod.ext_iff]
        exact ⟨hk, hv⟩
      rw [← this]
      exact List.mem_cons_self kv m
    · rw [if_neg hk] at h
      exact List.mem_cons_of_mem _ (ih h)

lemma exists_match_iff_keysMatching_ne_nil (dc : DataCache α) (pat : String) :
    (∃ k2, mapHas dc.cache k2 = true ∧ strIncludes k2 pat = true)
      ↔ keysMatching dc pat ≠ [] := by
  constructor
  · rintro ⟨k2, hk2⟩
    intro hnil
    have : k2 ∈ keysMatching dc pat := (mem_keysMatching dc pat k2).2 hk2
    rw [hnil] at this
    exact List.not_mem_nil k2 this
  · intro hne
    rcases List.exists_mem_of_ne_nil _ hne with ⟨k2, hk2⟩
    exact ⟨k2, (mem_keysMatching dc pat k2).1 hk2⟩

lemma invalidateOp_saves (dc : DataCache α) (st : Storage α) (pat : String)
    (h : ∃ k2, mapHas dc.cache k2 = true ∧ strIncludes k2 pat = true) :
    (invalidateOp dc st pat).2 = saveToStorage (dc.invalidate pat) := by
  have hne := (exists_match_iff_keysMatching_ne_nil dc pat).1 h
  have hpos : 0 < (keysMatching dc pat).length := List.length_pos.2 hne
  rw [invalidateOp]
  simp only [if_pos hpos]

lemma invalidateOp_no_match (dc : DataCache α) (st : Storage α) (pat : String)
    (h : ¬ ∃ k2, mapHas dc.cache k2 = true ∧ strIncludes k2 pat = true) :
    (invalidateOp dc st pat).2 = st ∧ dc.invalidate pat = dc := by
  have hnil : keysMatching dc pat = [] := by
    by_contra hne
    exact h ((exists_match_iff_keysMatching_ne_nil dc pat).2 hne)
  constructor
  · rw [invalidateOp]
    simp only [hnil, List.length_nil, lt_irrefl, if_false]
  · rw [DataCache.invalidate]
    simp only [hnil, List.foldl_nil]

/-- C5: pattern invalidation precision and conditional persistence. A key
survives invalidate(pat) exactly when it was stored and does not contain pat
as a substring; keys not containing pat keep their value and expiry
unchanged; and the durable slots are rewritten if and only if at least one
stored key matched the pattern. -/
theorem C5_invalidate_precision (dc : DataCache Nat) (st : Storage Nat)
    (pat k : String) :
    (mapHas (dc.invalidate pat).cache k
      = (mapHas dc.cache k && !(strIncludes k pat))) ∧
    (strIncludes k pat = false →
      mapGet (dc.invalidate pat).cache k = mapGet dc.cache k ∧
      mapGet (dc.invalidate pat).cacheTimestamps k
        = mapGet dc.cacheTimestamps k) ∧
    ((∃ k2, mapHas dc.cache k2 = true ∧ strIncludes k2 pat = true) →
      (invalidateOp dc st pat).2 = saveToStorage (dc.invalidate pat)) ∧
    ((¬ ∃ k2, mapHas dc.cache k2 = true ∧ strIncludes k2 pat = true) →
      (invalidateOp dc st pat).2 = st ∧ dc.invalidate pat = dc) := by
  have hcache : (dc.invalidate pat).cache
      = (keysMatching dc pat).foldl mapDelete dc.cache := rfl
  have hts : (dc.invalidate pat).cacheTimestamps
      = (keysMatching dc pat).foldl mapDelete dc.cacheTimestamps := rfl
  refine ⟨?_, ?_, invalidateOp_saves dc st pat, invalidateOp_no_match dc st pat⟩
  · rw [hcache, mapHas_foldl_mapDelete]
    by_cases hm : k ∈ keysMatching dc pat
    · have h2 := (mem_keysMatching dc pat k).1 hm
      rw [if_pos hm, h2.1, h2.2]
      rfl
    · rw [if_neg hm]
      cases hi : strIncludes k pat with
      | true =>
        cases hh : mapHas dc.cache k with
        | true =>
          exact absurd ((mem_keysMatching dc pat k).2 ⟨hh, hi⟩) hm
        | false => rfl
      | false =>
        cases hh : mapHas dc.cache k <;> rfl
  · intro hi
    have hm : k ∉ keysMatching dc pat := fun hmem =>
      by simpa [hi] using ((mem_keysMatching dc pat k).1 hmem).2
    rw [hcache, hts, mapGet_foldl_mapDelete, mapGet_foldl_mapDelete,
      if_neg hm, if_neg hm]
    exact ⟨rfl, rfl⟩

/-- Concrete state for exercising C5: two cached reads, one matching the
transactions pattern and one not. -/
def c5dc : DataCache Nat :=
  ⟨[("GET_/api/transactions/recent", 1), ("GET_/api/accounts", 2)],
   [("GET_/api/transactions/recent", 10), ("GET_/api/accounts", 20)]⟩

/-- Witness for C5 at a concrete input: invalidating /api/transactions leaves
GET_/api/accounts untouched and rewrites the durable slots because
GET_/api/transactions/recent matched. -/
theorem C5_invalidate_precision_witness :
    mapGet (c5dc.invalidate "/api/transactions").cache "GET_/api/accounts"
      = mapGet c5dc.cache "GET_/api/accounts" ∧
    (invalidateOp c5dc ⟨Slot.missing, Slot.missing⟩ "/api/transactions").2
      = saveToStorage (c5dc.invalidate "/api/transactions") :=
  ⟨((C5_invalidate_precision c5dc ⟨Slot.missing, Slot.missing⟩
      "/api/transactions" "GET_/api/accounts").2.1 (by decide)).1,
   (C5_invalidate_precision c5dc ⟨Slot.missing, Slot.missing⟩
      "/api/transactions" "GET_/api/accounts").2.2.1
     ⟨"GET_/api/transactions/recent", by decide, by decide⟩⟩

lemma set_cache_eq (dc : DataCache α) (k : String) (v : α) (ttl : Option Int)
    (now : Int) :
    (dc.set k v ttl now).cache
      = mapSet (if maxCacheSize ≤ dc.cache.length ∧ mapHas dc.cache k = false
          then dc.evictOldest now else dc).cache k v := rfl

lemma set_ts_eq_someT (dc : DataCache α) (k : String) (v : α) (T now : Int)
    (hT : T ≠ 0) :
    (dc.set k v (some T) now).cacheTimestamps
      = mapSet (if maxCacheSize ≤ dc.cache.length ∧ mapHas dc.cache k = false
          then dc.evictOldest now else dc).cacheTimestamps k (now + T) := by
  show mapSet _ k (now + (if T = 0 then getTTL k else T)) = _
  rw [if_neg hT]

lemma nodup_keysOf_mapDelete (m : List (String × β)) (k : String)
    (h : (keysOf m).Nodup) : (keysOf (mapDelete m k)).Nodup :=
  nodup_keysOf_filter m _ h

lemma nodup_ts_evictOldest (dc : DataCache α) (now : Int)
    (h : (keysOf dc.cacheTimestamps).Nodup) :
    (keysOf (dc.evictOldest now).cacheTimestamps).Nodup := by
  rw [DataCache.evictOldest]
  split
  · exact h
  · split
    · exact nodup_keysOf_mapDelete _ _ h
    · exact h

lemma nodup_ts_set_someT (dc : DataCache α) (k : String) (v : α) (T now : Int)
    (hT : T ≠ 0) (h : (keysOf dc.cacheTimestamps).Nodup) :
    (keysOf (dc.set k v (some T) now).cacheTimestamps).Nodup := by
  rw [set_ts_eq_someT dc k v T now hT]
  apply nodup_keysOf_mapSet
  split
  · exact nodup_ts_evictOldest dc now h
  · exact h

lemma cleanup_cache_eq (dc : DataCache α) (now : Int) :
    (dc.cleanupExpired now).cache
      = (keysOf (dc.cacheTimestamps.filter (fun kv => decide (now > kv.2)))).foldl
          mapDelete dc.cache := rfl

lemma cleanup_ts_eq (dc : DataCache α) (now : Int) :
    (dc.cleanupExpired now).cacheTimestamps
      = (keysOf (dc.cacheTimestamps.filter (fun kv => decide (now > kv.2)))).foldl
          mapDelete dc.cacheTimestamps := rfl

lemma not_mem_cleanup_keys (m : List (String × Int)) (k : String) (e now : Int)
    (hnd : (keysOf m).Nodup) (hget : mapGet m k = some e) (hlive : ¬ now > e) :
    k ∉ keysOf (m.filter (fun kv => decide (now > kv.2))) := by
  intro hmem
  rcases List.mem_map.1 hmem with ⟨kv, hkv, hfst⟩
  rcases List.mem_filter.1 hkv with ⟨hkv2, hexp⟩
  have : mapGet m kv.1 = some kv.2 := mapGet_eq_of_mem m kv hkv2 hnd
  rw [hfst, hget] at this
  have he : kv.2 = e := Option.some.inj this.symm
  rw [he] at hexp
  exact hlive (of_decide_eq_true hexp)

lemma mem_cleanup_keys (m : List (String × Int)) (k : String) (e now : Int)
    (hget : mapGet m k = some e) (hexp : now > e) :
    k ∈ keysOf (m.filter (fun kv => decide (now > kv.2))) := by
  have hmem : (k, e) ∈ m := mem_of_mapGet_eq_some m k e hget
  have : (k, e) ∈ m.filter (fun kv => decide (now > kv.2)) :=
    List.mem_filter.2 ⟨hmem, decide_eq_true hexp⟩
  exact mem_keysOf_of_mem _ (k, e) this

/-- C7: persistence round-trip. After set(k, v, ttl = T) at time t0, the
durable snapshot is reloaded at time t; if t is at most t0 + T the reloaded
store still returns v for k, and if t is strictly after t0 + T the entry is
pruned during load and get(k) returns absent. -/
theorem C7_persistence_round_trip (dc : DataCache Nat) (k : String) (v : Nat)
    (T t0 t : Int) (hnd : (keysOf dc.cacheTimestamps).Nodup) (hT : T ≠ 0) :
    (t ≤ t0 + T →
      ((loadFromStorage (setOp dc k v (some T) t0).2 t).get k t).1 = some v) ∧
    (t > t0 + T →
      ((loadFromStorage (setOp dc k v (some T) t0).2 t).get k t).1 = none ∧
      mapHas (loadFromStorage (setOp dc k v (some T) t0).2 t).cache k
        = false) := by
  set dc1 := dc.set k v (some T) t0 with hdc1
  have hload : loadFromStorage (setOp dc k v (some T) t0).2 t
      = dc1.cleanupExpired t := rfl
  have hget1 : mapGet dc1.cacheTimestamps k = some (t0 + T) := by
    rw [hdc1, set_ts_eq_someT dc k v T t0 hT, mapGet_mapSet_self]
  have hgetc : mapGet dc1.cache k = some v := by
    rw [hdc1, set_cache_eq, mapGet_mapSet_self]
  have hnd1 : (keysOf dc1.cacheTimestamps).Nodup :=
    nodup_ts_set_someT dc k v T t0 hT hnd
  constructor
  · intro ht
    have hnot : k ∉ keysOf (dc1.cacheTimestamps.filter
        (fun kv => decide (t > kv.2))) :=
      not_mem_cleanup_keys dc1.cacheTimestamps k (t0 + T) t hnd1 hget1
        (not_lt.2 ht)
    have hc2 : mapGet (dc1.cleanupExpired t).cache k = some v := by
      rw [cleanup_cache_eq, mapGet_foldl_mapDelete, if_neg hnot, hgetc]
    have hts2 : mapGet (dc1.cleanupExpired t).cacheTimestamps k
        = some (t0 + T) := by
      rw [cleanup_ts_eq, mapGet_foldl_mapDelete, if_neg hnot, hget1]
    have hhas : mapHas (dc1.cleanupExpired t).cache k = true := by
      rw [mapHas, hc2]
      rfl
    rw [hload, DataCache.get, hhas]
    simp only [Bool.true_eq_false, if_false, hts2,
      if_neg (not_lt.2 ht : ¬ t > t0 + T), hc2]
  · intro ht
    have hin : k ∈ keysOf (dc1.cacheTimestamps.filter
        (fun kv => decide (t > kv.2))) :=
      mem_cleanup_keys dc1.cacheTimestamps k (t0 + T) t hget1 ht
    have hc2 : mapGet (dc1.cleanupExpired t).cache k = none := by
      rw [cleanup_cache_eq, mapGet_foldl_mapDelete, if_pos hin]
    have hhas : mapHas (dc1.cleanupExpired t).cache k = false := by
      rw [mapHas, hc2]
      rfl
    rw [hload, DataCache.get, if_pos hhas]
    exact ⟨rfl, hhas⟩

/-- Witness for C7 at a concrete input: set "k" with ttl 60000 at time 0 into
the empty store; reloading at time 1 still returns the value, reloading at
time 60001 prunes the entry. -/
theorem C7_persistence_round_trip_witness :
    ((loadFromStorage
        (setOp (⟨[], []⟩ : DataCache Nat) "k" 9 (some 60000) 0).2 1).get
          "k" 1).1 = some 9 ∧
    ((loadFromStorage
        (setOp (⟨[], []⟩ : DataCache Nat) "k" 9 (some 60000) 0).2 60001).get
          "k" 60001).1 = none :=
  ⟨(C7_persistence_round_trip ⟨[], []⟩ "k" 9 60000 0 1
      (by simp [keysOf]) (by decide)).1 (by decide),
   ((C7_persistence_round_trip ⟨[], []⟩ "k" 9 60000 0 60001
      (by simp [keysOf]) (by decide)).2 (by decide)).1⟩

/-- 51 distinct cache keys, one more than the configured capacity. -/
def c1Keys : List String :=
  (List.range (maxCacheSize + 1)).map (fun i => "k" ++ toString i)

/-- The store obtained by inserting the 51 distinct keys into an empty cache
at time 0, each with an explicit ttl of 1000 ms, so every entry is unexpired
at every insertion. -/
def c1State : DataCache Nat :=
  c1Keys.foldl (fun dc k2 => dc.set k2 0 (some 1000) 0) ⟨[], []⟩

set_option maxRecDepth 200000 in
/-- C1: evaluation of the code at the failing input. Inserting
maxCacheSize + 1 distinct fresh keys leaves the store with
maxCacheSize + 1 entries: evictOldest starts its minimum scan at Date.now(),
so no unexpired entry is ever selected and nothing is evicted, contradicting
the capacity bound and the smallest-expiresAt eviction the claim states. -/
theorem C1_capacity_eviction_bug :
    c1Keys.Nodup ∧ c1Keys.length = maxCacheSize + 1 ∧
    c1State.getStats.1 = maxCacheSize + 1 := by
  decide

/-- C2: the window.cacheInvalidation object literal defines no
invalidateRecurringTransactions method, although config.js and accounts.js
invoke it; the Invalidation Router does not expose the invalidate-recurring
operation the claim describes. -/
theorem C2_invalidate_recurring_missing :
    cacheInvalidationMethodNames.contains "invalidateRecurringTransactions"
      = false := by
  decide

/-- A store holding one entry whose expiry (5) is already past at time 10,
with the durable slots synchronized to it. -/
def c3dc : DataCache Nat := ⟨[("k", 1)], [("k", 5)]⟩

/-- C3: counterexample. get on the expired key removes the entry from the
in-memory store, but the durable slots are left exactly as they were: no
persistence is attempted, so the persisted representation is not
resynchronized after this mutating operation. -/
theorem C3_persist_after_get_counterexample :
    (getOp c3dc (saveToStorage c3dc) "k" 10).2.1.cache = [] ∧
    (getOp c3dc (saveToStorage c3dc) "k" 10).2.2 = saveToStorage c3dc ∧
    (getOp c3dc (saveToStorage c3dc) "k" 10).2.2
      ≠ saveToStorage (getOp c3dc (saveToStorage c3dc) "k" 10).2.1 := by
  decide

/-- C3 (amended): persistence is attempted after every set, and after every
invalidate that matched at least one stored key; clear wipes both durable
slots; but get removing an expired entry leaves the durable slots untouched,
so the persisted representation is not resynchronized by get. -/
theorem C3_amended_persistence (dc : DataCache Nat) (st : Storage Nat)
    (k : String) (v : Nat) (ttl : Option Int) (now : Int) (pat : String) :
    (setOp dc k v ttl now).2 = saveToStorage (setOp dc k v ttl now).1 ∧
    ((∃ k2, mapHas dc.cache k2 = true ∧ strIncludes k2 pat = true) →
      (invalidateOp dc st pat).2 = saveToStorage (invalidateOp dc st pat).1) ∧
    (clearOp dc st).2 = (⟨Slot.missing, Slot.missing⟩ : Storage Nat) ∧
    (getOp dc st k now).2.2 = st := by
  refine ⟨rfl, ?_, rfl, rfl⟩
  intro h
  exact invalidateOp_saves dc st pat h

/-- Witness for the amended C3 at a concrete input: a store with a single
entry whose key matches the invalidation pattern. -/
theorem C3_amended_persistence_witness :
    (setOp (⟨[], []⟩ : DataCache Nat) "p" 1 none 0).2
      = saveToStorage (setOp (⟨[], []⟩ : DataCache Nat) "p" 1 none 0).1 ∧
    (invalidateOp (⟨[("p", 1)], [("p", 9)]⟩ : DataCache Nat)
        ⟨Slot.missing, Slot.missing⟩ "p").2
      = saveToStorage (invalidateOp (⟨[("p", 1)], [("p", 9)]⟩ : DataCache Nat)
          ⟨Slot.missing, Slot.missing⟩ "p").1 :=
  ⟨(C3_amended_persistence ⟨[], []⟩ ⟨Slot.missing, Slot.missing⟩
      "p" 1 none 0 "p").1,
   (C3_amended_persistence ⟨[("p", 1)], [("p", 9)]⟩
      ⟨Slot.missing, Slot.missing⟩ "p" 1 none 0 "p").2.1
     ⟨"p", by decide, by decide⟩⟩

/-- C8: counterexample. With the entry slot present and the timestamp slot
missing, loadFromStorage does not reset the in-memory store to empty: the
entry slot is loaded and kept (with no expiry data), so "a slot is missing
implies reset to empty" fails. -/
theorem C8_missing_slot_counterexample :
    loadFromStorage (⟨Slot.data [("k", 1)], Slot.missing⟩ : Storage Nat) 0
      ≠ (⟨[], []⟩ : DataCache Nat) := by
  decide

/-- C8 (amended): a malformed payload on either durable slot makes load reset
the in-memory store to empty (and the total function raises nothing); a
missing slot, however, only leaves that one map empty while the other slot
is loaded normally and swept for expiry. -/
theorem C8_amended_load_recovery (sc : Slot Nat) (stt : Slot Int) (now : Int) :
    (sc = Slot.malformed ∨ stt = Slot.malformed →
      loadFromStorage ⟨sc, stt⟩ now = (⟨[], []⟩ : DataCache Nat)) ∧
    (sc = Slot.missing → (loadFromStorage ⟨sc, stt⟩ now).cache = []) ∧
    (∀ es, sc = Slot.data es → stt = Slot.missing →
      loadFromStorage ⟨sc, stt⟩ now = (⟨es, []⟩ : DataCache Nat)) := by
  refine ⟨?_, ?_, ?_⟩
  · rintro (h | h)
    · subst h
      cases stt <;> rfl
    · subst h
      cases sc <;> rfl
  · intro h
    subst h
    cases stt with
    | missing =>
        show ((⟨[], []⟩ : DataCache Nat).cleanupExpired now).cache = []
        rw [cleanup_cache_eq, foldl_mapDelete]
        rfl
    | malformed => rfl
    | data es =>
        show ((⟨[], es⟩ : DataCache Nat).cleanupExpired now).cache = []
        rw [cleanup_cache_eq, foldl_mapDelete]
        rfl
  · intro es h1 h2
    subst h1
    subst h2
    rfl

/-- Witness for the amended C8: a malformed entry slot resets the store; a
missing entry slot leaves the entry map empty; a missing timestamp slot
keeps the loaded entry slot. -/
theorem C8_amended_load_recovery_witness :
    loadFromStorage (⟨Slot.malformed, Slot.missing⟩ : Storage Nat) 0
      = (⟨[], []⟩ : DataCache Nat) ∧
    (loadFromStorage (⟨Slot.missing, Slot.data [("x", 3)]⟩ : Storage Nat)
      0).cache = [] ∧
    loadFromStorage (⟨Slot.data [("k", 1)], Slot.missing⟩ : Storage Nat) 0
      = (⟨[("k", 1)], []⟩ : DataCache Nat) :=
  ⟨(C8_amended_load_recovery Slot.malformed Slot.missing 0).1 (Or.inl rfl),
   (C8_amended_load_recovery Slot.missing (Slot.data [("x", 3)]) 0).2.1 rfl,
   (C8_amended_load_recovery (Slot.data [("k", 1)]) Slot.missing 0).2.2
     [("k", 1)] rfl rfl⟩

/-- C9: clear completeness. After clear the in-memory store reports size 0,
both durable slots are wiped unconditionally, and a fresh load from the
wiped durable storage yields an empty store. -/
theorem C9_clear_completeness (dc : DataCache Nat) (st : Storage Nat)
    (t : Int) :
    ((clearOp dc st).1.getStats).1 = 0 ∧
    (clearOp dc st).2 = (⟨Slot.missing, Slot.missing⟩ : Storage Nat) ∧
    loadFromStorage (clearOp dc st).2 t = (⟨[], []⟩ : DataCache Nat) :=
  ⟨rfl, rfl, rfl⟩
